import Mathlib

/-!
Verification of the `qrdet` post-processing pipeline.

This file gives a shallow embedding of `QRDetector.detect`
(src/qrdet/qrdet.py) over exact rational arithmetic.  The pipeline
starts from the per-anchor rows of the raw model output (the array
`boxes` obtained after the mask matrix product, qrdet.py lines 116-135)
and covers: the confidence filter building candidate objects
(lines 139-155), the confidence-descending stable sort (line 157), the
greedy polygon-IoU non-maximum suppression loop (lines 160-163), the
construction of the final detection records including coordinate
translation, quadrilateral fitting, clipping and normalization
(lines 170-241), and the unconditional crop call on the first detection
(line 243).

Functions that live in repository modules not present under src/
(`qrdet.get_mask`, `qrdet.get_polygon`, `qrdet.iou`) are abstracted as
parameters, and the external `QuadrilateralFitter` is modelled from the
spec; each such definition carries a doc comment saying so.
-/

namespace QRDet

/-- A point in the plane, `(x, y)`. -/
abbrev Pt := ℚ × ℚ

/-- One anchor row of the raw model output after the transpose and the
mask matrix product (qrdet.py lines 116-135): `row[:4]` is
`(xc, yc, w, h)` relative to the 640×640 model input, `row[4]` is the
single class score (`row[4:5].max()` of the source is this one value),
and `row[5:]` are the mask coefficients fed to `get_mask`. -/
structure Row where
  xc : ℚ
  yc : ℚ
  w : ℚ
  h : ℚ
  score : ℚ
  maskCoeffs : List ℚ
deriving DecidableEq

/-- One candidate object `[x1, y1, x2, y2, label, prob, polygon]` as
appended at qrdet.py line 155 (the constant `label` is dropped: it is
`custom_classes[0]` for every row). The polygon is in mask-local
coordinates, exactly as returned by `get_polygon`. -/
structure Obj where
  x1 : ℚ
  y1 : ℚ
  x2 : ℚ
  y2 : ℚ
  prob : ℚ
  polygon : List Pt
deriving DecidableEq

/-- The type of the abstracted `qrdet.get_mask` / `qrdet.get_polygon`
composition (qrdet.py lines 153-154).  Both functions live in the
`qrdet.utils` module, which is not under src/; the composite takes the
mask coefficients `row[5:]`, the box `(x1, y1, x2, y2)` and the image
width and height, and returns the contour polygon of the decoded mask
in mask-local coordinates. -/
abbrev PolyOf := List ℚ → ℚ × ℚ × ℚ × ℚ → ℚ → ℚ → List Pt

/-- Builds one candidate from a row that passed the confidence filter
(qrdet.py lines 144-155): box conversion from `(cx, cy, w, h)` in
640-space to corner coordinates in original-image pixels, then mask
decoding and polygon extraction. -/
def mkObj (getPolygon : PolyOf) (imW imH : ℚ) (row : Row) : Obj :=
  let x1 := (row.xc - row.w / 2) / 640 * imW
  let y1 := (row.yc - row.h / 2) / 640 * imH
  let x2 := (row.xc + row.w / 2) / 640 * imW
  let y2 := (row.yc + row.h / 2) / 640 * imH
  { x1 := x1, y1 := y1, x2 := x2, y2 := y2, prob := row.score,
    polygon := getPolygon row.maskCoeffs (x1, y1, x2, y2) imW imH }

/-- The per-row confidence filter loop (qrdet.py lines 139-155): a row
whose score is below `conf_th` is skipped with `continue` before any
mask decoding; every other row contributes exactly one candidate, in
row order. -/
def buildObjects (getPolygon : PolyOf) (conf_th imW imH : ℚ)
    (rows : List Row) : List Obj :=
  rows.filterMap fun row =>
    if row.score < conf_th then none else some (mkObj getPolygon imW imH row)

/-- One suppression step of the NMS loop (qrdet.py line 163): rebuild
the candidate list keeping only the objects whose IoU with the just
accepted object is strictly below the threshold. -/
def nmsSuppress (iou : Obj → Obj → ℚ) (th : ℚ) (accepted : Obj)
    (objects : List Obj) : List Obj :=
  objects.filter fun o => iou o accepted < th

/-- The greedy NMS `while` loop (qrdet.py lines 161-163), with explicit
fuel bounding the number of iterations: each iteration appends the head
of the remaining list to the results and filters the whole remaining
list (head included, exactly as the source's list comprehension does)
through `nmsSuppress`. -/
def nmsLoop (iou : Obj → Obj → ℚ) (th : ℚ) : Nat → List Obj → List Obj
  | 0, _ => []
  | _ + 1, [] => []
  | fuel + 1, x :: xs => x :: nmsLoop iou th fuel (nmsSuppress iou th x (x :: xs))

/-- Greedy NMS over a candidate list (qrdet.py lines 160-163).  The fuel
`objects.length` is exact whenever each accepted object suppresses
itself (`iou x x ≥ th`, which holds for the polygon IoU of any object
with positive area and any threshold ≤ 1); in that case every iteration
strictly shrinks the list, as in the source's `while` loop. -/
def nms (iou : Obj → Obj → ℚ) (th : ℚ) (objects : List Obj) : List Obj :=
  nmsLoop iou th objects.length objects

/-- `np.clip(v, lo, hi)` on one rational scalar. -/
def clip (lo hi v : ℚ) : ℚ := min hi (max lo v)

/-- Least x-coordinate over the nonempty point list `p :: ps`. -/
def minX (p : Pt) (ps : List Pt) : ℚ := ps.foldl (fun m q => min m q.1) p.1

/-- Greatest x-coordinate over the nonempty point list `p :: ps`. -/
def maxX (p : Pt) (ps : List Pt) : ℚ := ps.foldl (fun m q => max m q.1) p.1

/-- Least y-coordinate over the nonempty point list `p :: ps`. -/
def minY (p : Pt) (ps : List Pt) : ℚ := ps.foldl (fun m q => min m q.2) p.2

/-- Greatest y-coordinate over the nonempty point list `p :: ps`. -/
def maxY (p : Pt) (ps : List Pt) : ℚ := ps.foldl (fun m q => max m q.2) p.2

/-- Corners of the axis-aligned bounding box of a point list, in the
winding `(xmin,ymin), (xmax,ymin), (xmax,ymax), (xmin,ymax)`; empty for
the empty list. -/
def bboxCorners : List Pt → List Pt
  | [] => []
  | p :: ps =>
    [(minX p ps, minY p ps), (maxX p ps, minY p ps),
     (maxX p ps, maxY p ps), (minX p ps, maxY p ps)]

/-- Modelled from the spec: `qrdet.iou` (called at qrdet.py line 163)
lives in the utils module, which is not under src/.  The spec (§4.4)
defines it as polygon-based IoU — area of intersection over area of
union, computed via polygon clipping.  It is realized here for
candidates whose polygons are axis-aligned rectangles (given as vertex
lists), for which polygon clipping reduces to interval overlap: the
intersection area is the product of the overlaps of the x- and
y-extents, and the union area is `area₁ + area₂ - intersection`. -/
def rectIoU (a b : Obj) : ℚ :=
  match a.polygon, b.polygon with
  | p :: ps, q :: qs =>
    let interW := min (maxX p ps) (maxX q qs) - max (minX p ps) (minX q qs)
    let interH := min (maxY p ps) (maxY q qs) - max (minY p ps) (minY q qs)
    let inter := max 0 interW * max 0 interH
    let areaA := (maxX p ps - minX p ps) * (maxY p ps - minY p ps)
    let areaB := (maxX q qs - minX q qs) * (maxY q qs - minY q qs)
    inter / (areaA + areaB - inter)
  | _, _ => 0

/-- The state stored by `QRDetector.__init__` (qrdet.py lines 56-66):
the model size and the two thresholds, kept exactly as passed in. -/
structure QRDetectorState where
  model_size : String
  conf_th : ℚ
  nms_iou : ℚ
deriving DecidableEq

/-- The constructor `QRDetector.__init__` (qrdet.py lines 43-66): it
asserts that the model size is one of n/s/m/l and that the weights file
exists (the filesystem check is abstracted as the Boolean argument
`weights_exist`), then stores the thresholds; no other validation is
performed.  A failing `assert` is an `Except.error` carrying the
message of the source assertion. -/
def mkQRDetector (model_size : String) (weights_exist : Bool)
    (conf_th nms_iou : ℚ) : Except String QRDetectorState :=
  if model_size ∉ (["n", "s", "m", "l"] : List String) then
    Except.error "Invalid model size"
  else if !weights_exist then
    Except.error "Could not find model weights"
  else
    Except.ok { model_size := model_size, conf_th := conf_th, nms_iou := nms_iou }

/-- The two quadrilaterals produced by the fitter: the tight fit
(`QuadrilateralFitter.fit`, qrdet.py line 201) and the expanded one
(`.expanded_quadrilateral`, qrdet.py line 218). -/
structure QuadFit where
  quadrilateral : List Pt
  expanded_quadrilateral : List Pt
deriving DecidableEq

/-- Modelled from the spec: the quadrilateral fitter of §4.5 is the
external `quadrilateral_fitter` package, not under src/.  The spec
leaves the fitting heuristic and the iterative simplification internals
unspecified (§9: only containment and tightness are load-bearing), so
the simplification is abstracted as the function argument `simplify`,
the tight quadrilateral is modelled as the four corners of the
axis-aligned bounding box of the simplified polygon, and the expanded
quadrilateral as the four corners of the axis-aligned bounding box of
the tight quadrilateral's vertices together with every vertex of the
original, unsimplified polygon — realizing the spec's guarantee that
the expansion contains every point of the original polygon. -/
def fitQuadrilateral (simplify : List Pt → List Pt) (poly : List Pt) : QuadFit :=
  let tight := bboxCorners (simplify poly)
  { quadrilateral := tight
    expanded_quadrilateral := bboxCorners (tight ++ poly) }

/-- The final detection record (qrdet.py lines 225-241), with the same
fields as the dictionary the source builds. -/
structure Detection where
  confidence : ℚ
  bbox_xyxy : ℚ × ℚ × ℚ × ℚ
  bbox_xyxyn : ℚ × ℚ × ℚ × ℚ
  cxcy : Pt
  cxcyn : Pt
  wh : Pt
  whn : Pt
  polygon_xy : List Pt
  polygon_xyn : List Pt
  quadrilateral_xy : List Pt
  quadrilateral_xyn : List Pt
  expanded_quadrilateral_xy : List Pt
  expanded_quadrilateral_xyn : List Pt
  image_shape : ℚ × ℚ
deriving DecidableEq

/-- The in-place point translation of qrdet.py lines 187-191: every
polygon point is moved from mask-local coordinates into original-image
pixel space by adding the box's top-left corner. -/
def translatePoly (x1 y1 : ℚ) (poly : List Pt) : List Pt :=
  poly.map fun p => (p.1 + x1, p.2 + y1)

/-- Construction of one detection record from one NMS survivor
(qrdet.py lines 173-241), in source order: raw bbox, center and
width/height plus their normalized versions; polygon translation and
its normalized version; quadrilateral fit on the translated, not yet
clipped polygon; clipping of the bbox and of the accurate polygon (both
pixel and normalized) — and of nothing else; normalized quadrilaterals
by component-wise division. -/
def buildDetection (simplify : List Pt → List Pt) (imW imH : ℚ) (r : Obj) :
    Detection :=
  let cx := (r.x1 + r.x2) / 2
  let cy := (r.y1 + r.y2) / 2
  let bbox_w := r.x2 - r.x1
  let bbox_h := r.y2 - r.y1
  let accurate_polygon_xy := translatePoly r.x1 r.y1 r.polygon
  let accurate_polygon_xyn := accurate_polygon_xy.map fun p => (p.1 / imW, p.2 / imH)
  let quadFit := fitQuadrilateral simplify accurate_polygon_xy
  { confidence := r.prob
    bbox_xyxy := (clip 0 imW r.x1, clip 0 imH r.y1, clip 0 imW r.x2, clip 0 imH r.y2)
    bbox_xyxyn := (clip 0 1 (r.x1 / imW), clip 0 1 (r.y1 / imH),
                   clip 0 1 (r.x2 / imW), clip 0 1 (r.y2 / imH))
    cxcy := (cx, cy)
    cxcyn := (cx / imW, cy / imH)
    wh := (bbox_w, bbox_h)
    whn := (bbox_w / imW, bbox_h / imH)
    polygon_xy := accurate_polygon_xy.map fun p => (clip 0 imW p.1, clip 0 imH p.2)
    polygon_xyn := accurate_polygon_xyn.map fun p => (clip 0 1 p.1, clip 0 1 p.2)
    quadrilateral_xy := quadFit.quadrilateral
    quadrilateral_xyn := quadFit.quadrilateral.map fun p => (p.1 / imW, p.2 / imH)
    expanded_quadrilateral_xy := quadFit.expanded_quadrilateral
    expanded_quadrilateral_xyn :=
      quadFit.expanded_quadrilateral.map fun p => (p.1 / imW, p.2 / imH)
    image_shape := (imH, imW) }

/-- The dictionary keys of `_qrdet_dict_keys` (a repository module not
under src/; the key names follow the docstring of `detect`). Only the
key passed to `crop_qr` matters here. -/
inductive DictKey where
  | padded_quad_xy
  | padded_quad_xyn
deriving DecidableEq

/-- One invocation of the external cropping utility `qrdet.crop_qr`
(qrdet.py line 243), recorded as an effect: which detection record it
received and under which key it reads the cropping quadrilateral. -/
structure CropCall where
  detection : Detection
  cropKey : DictKey
deriving DecidableEq

/-- The post-processing core of `QRDetector.detect` (qrdet.py
lines 139-245): confidence filter, stable confidence-descending sort,
greedy NMS, detection-record construction, and the crop call on
`detections[0]` — returned as a `(detections, crop calls)` pair so the
side effect is visible.  `detect` returns `[]` at line 168 when no
candidate survives NMS. -/
def detectCore (getPolygon : PolyOf) (simplify : List Pt → List Pt)
    (iou : Obj → Obj → ℚ) (conf_th nms_iou imW imH : ℚ) (rows : List Row) :
    List Detection × List CropCall :=
  let objects := buildObjects getPolygon conf_th imW imH rows
  let sorted := objects.mergeSort fun a b => b.prob ≤ a.prob
  let results := nms iou nms_iou sorted
  match results.map (buildDetection simplify imW imH) with
  | [] => ([], [])
  | d :: ds => (d :: ds, [{ detection := d, cropKey := DictKey.padded_quad_xyn }])

/-- A candidate whose polygon is the axis-aligned rectangle
`[xa, xb] × [ya, yb]` listed corner by corner; used as concrete input in
the counterexamples (its box fields coincide with the rectangle). -/
def rectObj (xa ya xb yb conf : ℚ) : Obj :=
  { x1 := xa, y1 := ya, x2 := xb, y2 := yb, prob := conf,
    polygon := [(xa, ya), (xb, ya), (xb, yb), (xa, yb)] }

/-- The four candidates of the NMS threshold-monotonicity
counterexample: a long bar `[0,30]×[0,10]` overlapped in the middle by
the highest-confidence square `[10,20]×[0,10]` and at its two ends by
two disjoint rectangles. -/
def objsNms : List Obj :=
  [rectObj 10 0 20 10 (9/10), rectObj 0 0 30 10 (8/10),
   rectObj 0 0 12 10 (7/10), rectObj 18 0 30 10 (6/10)]

section Lemmas

/-- A left fold by `min` never exceeds its initial value. -/
theorem foldl_min_le_init {α : Type} (g : α → ℚ) (l : List α) (init : ℚ) :
    l.foldl (fun m q => min m (g q)) init ≤ init := by
  induction l generalizing init with
  | nil => simp
  | cons a t ih =>
    simpa using le_trans (ih (min init (g a))) (min_le_left _ _)

/-- A left fold by `min` never exceeds the value of any list element. -/
theorem foldl_min_le_mem {α : Type} (g : α → ℚ) {l : List α} {q : α}
    (hq : q ∈ l) (init : ℚ) :
    l.foldl (fun m q => min m (g q)) init ≤ g q := by
  induction l generalizing init with
  | nil => cases hq
  | cons a t ih =>
    rcases List.mem_cons.mp hq with rfl | hq2
    · simpa using le_trans (foldl_min_le_init g t (min init (g q))) (min_le_right _ _)
    · simpa using ih hq2 (min init (g a))

/-- A left fold by `max` is at least its initial value. -/
theorem init_le_foldl_max {α : Type} (g : α → ℚ) (l : List α) (init : ℚ) :
    init ≤ l.foldl (fun m q => max m (g q)) init := by
  induction l generalizing init with
  | nil => simp
  | cons a t ih =>
    simpa using le_trans (le_max_left _ _) (ih (max init (g a)))

/-- A left fold by `max` is at least the value of any list element. -/
theorem mem_le_foldl_max {α : Type} (g : α → ℚ) {l : List α} {q : α}
    (hq : q ∈ l) (init : ℚ) :
    g q ≤ l.foldl (fun m q => max m (g q)) init := by
  induction l generalizing init with
  | nil => cases hq
  | cons a t ih =>
    rcases List.mem_cons.mp hq with rfl | hq2
    · simpa using le_trans (le_max_right _ _) (init_le_foldl_max g t (max init (g q)))
    · simpa using ih hq2 (max init (g a))

/-- `minX` bounds the x-coordinate of every point of the list. -/
theorem minX_le (p : Pt) (ps : List Pt) {q : Pt} (hq : q ∈ p :: ps) :
    minX p ps ≤ q.1 := by
  rcases List.mem_cons.mp hq with rfl | hq2
  · exact foldl_min_le_init _ _ _
  · exact foldl_min_le_mem _ hq2 _

/-- `maxX` bounds the x-coordinate of every point of the list. -/
theorem le_maxX (p : Pt) (ps : List Pt) {q : Pt} (hq : q ∈ p :: ps) :
    q.1 ≤ maxX p ps := by
  rcases List.mem_cons.mp hq with rfl | hq2
  · exact init_le_foldl_max _ _ _
  · exact mem_le_foldl_max _ hq2 _

/-- `minY` bounds the y-coordinate of every point of the list. -/
theorem minY_le (p : Pt) (ps : List Pt) {q : Pt} (hq : q ∈ p :: ps) :
    minY p ps ≤ q.2 := by
  rcases List.mem_cons.mp hq with rfl | hq2
  · exact foldl_min_le_init _ _ _
  · exact foldl_min_le_mem _ hq2 _

/-- `maxY` bounds the y-coordinate of every point of the list. -/
theorem le_maxY (p : Pt) (ps : List Pt) {q : Pt} (hq : q ∈ p :: ps) :
    q.2 ≤ maxY p ps := by
  rcases List.mem_cons.mp hq with rfl | hq2
  · exact init_le_foldl_max _ _ _
  · exact mem_le_foldl_max _ hq2 _

/-- Any value between `a` and `b` is a convex combination of them. -/
theorem exists_convex_coeff {a b x : ℚ} (h1 : a ≤ x) (h2 : x ≤ b) :
    ∃ t : ℚ, 0 ≤ t ∧ t ≤ 1 ∧ x = (1 - t) * a + t * b := by
  rcases eq_or_lt_of_le (h1.trans h2) with hab | hab
  · refine ⟨0, le_refl _, zero_le_one, ?_⟩
    have hxa : x = a := le_antisymm (hab ▸ h2) h1
    rw [hxa]; ring
  · have hba : b - a ≠ 0 := sub_ne_zero.mpr (ne_of_gt hab)
    refine ⟨(x - a) / (b - a), div_nonneg (by linarith) (by linarith), ?_, ?_⟩
    · rw [div_le_one (by linarith)]; linarith
    · field_simp
      ring

/-- Every point of a list lies in the convex hull of the corners of the
list's axis-aligned bounding box. -/
theorem mem_convexHull_bboxCorners : ∀ {l : List Pt} {p : Pt}, p ∈ l →
    p ∈ convexHull ℚ {q : Pt | q ∈ bboxCorners l} := by
  intro l p hp
  match l, hp with
  | a :: ps, hp =>
    obtain ⟨s, hs0, hs1, hsx⟩ := exists_convex_coeff (minX_le a ps hp) (le_maxX a ps hp)
    obtain ⟨t, ht0, ht1, hty⟩ := exists_convex_coeff (minY_le a ps hp) (le_maxY a ps hp)
    set S : Set Pt := {q : Pt | q ∈ bboxCorners (a :: ps)} with hS
    have hC : Convex ℚ (convexHull ℚ S) := convex_convexHull ℚ S
    have h00 : ((minX a ps, minY a ps) : Pt) ∈ convexHull ℚ S :=
      subset_convexHull ℚ S (by simp [hS, bboxCorners])
    have h10 : ((maxX a ps, minY a ps) : Pt) ∈ convexHull ℚ S :=
      subset_convexHull ℚ S (by simp [hS, bboxCorners])
    have h01 : ((minX a ps, maxY a ps) : Pt) ∈ convexHull ℚ S :=
      subset_convexHull ℚ S (by simp [hS, bboxCorners])
    have h11 : ((maxX a ps, maxY a ps) : Pt) ∈ convexHull ℚ S :=
      subset_convexHull ℚ S (by simp [hS, bboxCorners])
    have hbot : ((1 - s) • ((minX a ps, minY a ps) : Pt)
        + s • ((maxX a ps, minY a ps) : Pt)) ∈ convexHull ℚ S :=
      hC h00 h10 (show (0 : ℚ) ≤ 1 - s by linarith) hs0
        (show (1 - s) + s = 1 by ring)
    have htop : ((1 - s) • ((minX a ps, maxY a ps) : Pt)
        + s • ((maxX a ps, maxY a ps) : Pt)) ∈ convexHull ℚ S :=
      hC h01 h11 (show (0 : ℚ) ≤ 1 - s by linarith) hs0
        (show (1 - s) + s = 1 by ring)
    have hfin := hC hbot htop (show (0 : ℚ) ≤ 1 - t by linarith) ht0
      (show (1 - t) + t = 1 by ring)
    have hpe : p = (1 - t) • ((1 - s) • ((minX a ps, minY a ps) : Pt)
        + s • ((maxX a ps, minY a ps) : Pt))
        + t • ((1 - s) • ((minX a ps, maxY a ps) : Pt)
        + s • ((maxX a ps, maxY a ps) : Pt)) := by
      rw [Prod.ext_iff]
      constructor
      · simp only [Prod.smul_mk, smul_eq_mul, Prod.mk_add_mk, Prod.fst]
        linear_combination hsx
      · simp only [Prod.smul_mk, smul_eq_mul, Prod.mk_add_mk, Prod.snd]
        linear_combination hty
    rw [hpe]
    exact hfin

/-- The lower clip bound: `clip lo hi v` is at least `lo` when the
bounds are ordered. -/
theorem le_clip {lo hi : ℚ} (h : lo ≤ hi) (v : ℚ) : lo ≤ clip lo hi v :=
  le_min h (le_max_left _ _)

/-- The upper clip bound: `clip lo hi v` is at most `hi`. -/
theorem clip_le (lo hi v : ℚ) : clip lo hi v ≤ hi := min_le_left _ _

/-- Clipping to `[0, hi]` commutes with division by a positive scalar. -/
theorem clip_div {w : ℚ} (hw : 0 < w) (hi v : ℚ) :
    clip 0 hi v / w = clip 0 (hi / w) (v / w) := by
  have h1 : min hi (max 0 v) / w = min (hi / w) ((max 0 v) / w) :=
    (min_div_div_right hw.le _ _).symm
  have h2 : (max 0 v) / w = max (0 / w) (v / w) :=
    (max_div_div_right hw.le _ _).symm
  rw [clip, clip, h1, h2, zero_div]

/-- Every element of an NMS output was among the input candidates. -/
theorem mem_of_mem_nmsLoop (iou : Obj → Obj → ℚ) (th : ℚ) :
    ∀ (fuel : Nat) (l : List Obj) {y : Obj}, y ∈ nmsLoop iou th fuel l → y ∈ l := by
  intro fuel
  induction fuel with
  | zero => intro l y h; simp [nmsLoop] at h
  | succ n ih =>
    intro l y h
    match l with
    | [] => simp [nmsLoop] at h
    | x :: xs =>
      simp only [nmsLoop] at h
      rcases List.mem_cons.mp h with rfl | h2
      · exact List.mem_cons_self _ _
      · exact (List.mem_filter.mp (ih _ h2)).1

/-- NMS preserves any reflexive pairwise invariant of its input list;
in particular it preserves sortedness by confidence. -/
theorem pairwise_nmsLoop {R : Obj → Obj → Prop} (hrefl : ∀ a : Obj, R a a)
    (iou : Obj → Obj → ℚ) (th : ℚ) :
    ∀ (fuel : Nat) (l : List Obj), l.Pairwise R → (nmsLoop iou th fuel l).Pairwise R := by
  intro fuel
  induction fuel with
  | zero => intro l _; simp [nmsLoop]
  | succ n ih =>
    intro l h
    match l with
    | [] => simp [nmsLoop]
    | x :: xs =>
      simp only [nmsLoop]
      refine List.Pairwise.cons ?_ (ih _ (h.filter _))
      intro y hy
      have hy2 : y ∈ x :: xs := (List.mem_filter.mp (mem_of_mem_nmsLoop _ _ _ _ hy)).1
      rcases List.mem_cons.mp hy2 with rfl | hy3
      · exact hrefl y
      · exact (List.pairwise_cons.mp h).1 y hy3

end Lemmas

/-- C6: a row of the raw model output yields a candidate exactly when
its maximum class score reaches the confidence threshold:
`buildObjects` equals mapping the candidate constructor over the rows
whose score is at least `conf_th`, so a row strictly below the
threshold produces no candidate and is skipped before any mask
decoding. -/
theorem c6_candidate_iff_score_reaches_threshold (getPolygon : PolyOf)
    (conf_th imW imH : ℚ) (rows : List Row) :
    buildObjects getPolygon conf_th imW imH rows
      = (rows.filter fun row => conf_th ≤ row.score).map (mkObj getPolygon imW imH) := by
  induction rows with
  | nil => rfl
  | cons r t ih =>
    by_cases h : r.score < conf_th
    · have h2 : ¬ conf_th ≤ r.score := not_le.mpr h
      simp only [buildObjects] at ih ⊢
      simp [List.filterMap_cons, List.filter_cons, h, h2, ih]
    · have h2 : conf_th ≤ r.score := not_lt.mp h
      simp only [buildObjects] at ih ⊢
      simp [List.filterMap_cons, List.filter_cons, h, h2, ih]

/-- C8: when every anchor row's class score is below the confidence
threshold no candidate is assembled and `detect` returns the empty
sequence (with no crop call). -/
theorem c8_all_rows_below_threshold_empty_output (getPolygon : PolyOf)
    (simplify : List Pt → List Pt) (iou : Obj → Obj → ℚ)
    (conf_th nms_iou imW imH : ℚ) (rows : List Row)
    (h : ∀ row ∈ rows, row.score < conf_th) :
    detectCore getPolygon simplify iou conf_th nms_iou imW imH rows = ([], []) := by
  have hb : buildObjects getPolygon conf_th imW imH rows = [] := by
    unfold buildObjects
    rw [List.filterMap_eq_nil_iff]
    intro row hr
    simp [h row hr]
  unfold detectCore
  simp [hb, List.mergeSort_nil, nms, nmsLoop]

/-- Witness for C8: a single row with score 1/4 against threshold 1/2
gives the empty output. -/
theorem c8_witness :
    detectCore (fun _ _ _ _ => []) (fun l => l) rectIoU (1/2) (3/10) 100 100
      [{ xc := 320, yc := 320, w := 64, h := 64, score := 1/4, maskCoeffs := [] }]
      = ([], []) :=
  c8_all_rows_below_threshold_empty_output _ _ _ _ _ _ _ _ (by
    intro row hr
    rcases List.mem_singleton.mp hr with rfl
    norm_num)

/-- C9 (amended): the constructor validates only the model size and the
existence of the weights file; the thresholds are stored without any
range check, so construction succeeds or fails independently of the
threshold values. -/
theorem c9_amended_no_threshold_validation (ms : String) (we : Bool) (c n : ℚ) :
    (mkQRDetector ms we c n).isOk
      = (decide (ms ∈ (["n", "s", "m", "l"] : List String)) && we) := by
  by_cases h : ms ∈ (["n", "s", "m", "l"] : List String)
  · cases we <;> simp [mkQRDetector, h, Except.isOk, Except.toBool]
  · simp [mkQRDetector, h, Except.isOk, Except.toBool]

/-- C9 counterexample: thresholds far outside `(0, 1]` (confidence 2,
NMS IoU 3/2) are accepted without any failure, contradicting the
claimed fail-fast validation of out-of-range thresholds. -/
theorem c9_counterexample_out_of_range_thresholds_accepted :
    mkQRDetector "s" true 2 (3/2)
      = Except.ok { model_size := "s", conf_th := 2, nms_iou := 3/2 }
    ∧ (1 : ℚ) < 2 ∧ (1 : ℚ) < 3/2 := by
  refine ⟨?_, by norm_num, by norm_num⟩
  simp [mkQRDetector]

/-- C10: the crop side effect of `detect`: whenever the returned
sequence is non-empty, `crop_qr` is called exactly once, on the first
(highest-confidence) detection record, with the padded-quadrilateral
key; when the sequence is empty no crop call is made. -/
theorem c10_crop_called_on_first_detection (getPolygon : PolyOf)
    (simplify : List Pt → List Pt) (iou : Obj → Obj → ℚ)
    (conf_th nms_iou imW imH : ℚ) (rows : List Row) :
    (detectCore getPolygon simplify iou conf_th nms_iou imW imH rows).2
      = match (detectCore getPolygon simplify iou conf_th nms_iou imW imH rows).1 with
        | [] => []
        | d :: _ => [{ detection := d, cropKey := DictKey.padded_quad_xyn }] := by
  unfold detectCore
  cases hm : (nms iou nms_iou ((buildObjects getPolygon conf_th imW imH rows).mergeSort
      fun a b => b.prob ≤ a.prob)).map (buildDetection simplify imW imH) with
  | nil => simp [hm]
  | cons d ds => simp [hm]

/-- C3 counterexample: two rectangles whose polygon IoU is exactly the
threshold 1/3; the lower-confidence one is removed by NMS, not kept. -/
theorem c3_counterexample_equal_iou_removed :
    rectIoU (rectObj 0 5 10 15 (8/10)) (rectObj 0 0 10 10 (9/10)) = 1/3
    ∧ nms rectIoU (1/3) [rectObj 0 0 10 10 (9/10), rectObj 0 5 10 15 (8/10)]
        = [rectObj 0 0 10 10 (9/10)] := by
  constructor
  · norm_num [rectIoU, minX, maxX, minY, maxY, rectObj]
  · norm_num [nms, nmsLoop, nmsSuppress, rectIoU, minX, maxX, minY, maxY, rectObj,
      List.filter]

/-- C3 (amended): after the highest-confidence remaining candidate is
accepted, a remaining candidate survives the suppression step iff its
IoU with the accepted one is strictly below the threshold: it is
removed iff its IoU is greater than or equal to the threshold, so a
candidate whose IoU equals the threshold exactly is removed. -/
theorem c3_amended_removal_at_threshold (iou : Obj → Obj → ℚ) (th : ℚ)
    (x o : Obj) (xs : List Obj) (ho : o ∈ x :: xs) :
    nms iou th (x :: xs)
      = x :: nmsLoop iou th xs.length (nmsSuppress iou th x (x :: xs))
    ∧ (o ∈ nmsSuppress iou th x (x :: xs) ↔ iou o x < th) := by
  refine ⟨rfl, ?_⟩
  simp [nmsSuppress, List.mem_filter, ho]

/-- Witness for the amended C3 at a concrete candidate. -/
theorem c3_amended_witness :
    nms rectIoU 1 [rectObj 0 0 1 1 1]
      = rectObj 0 0 1 1 1
        :: nmsLoop rectIoU 1 ([] : List Obj).length
             (nmsSuppress rectIoU 1 (rectObj 0 0 1 1 1) [rectObj 0 0 1 1 1])
    ∧ (rectObj 0 0 1 1 1 ∈ nmsSuppress rectIoU 1 (rectObj 0 0 1 1 1) [rectObj 0 0 1 1 1]
        ↔ rectIoU (rectObj 0 0 1 1 1) (rectObj 0 0 1 1 1) < 1) :=
  c3_amended_removal_at_threshold rectIoU 1 (rectObj 0 0 1 1 1) (rectObj 0 0 1 1 1) []
    (List.mem_cons_self _ _)

/-- C7 counterexample: four rectangular candidates for which the
stricter threshold 1/5 leaves three NMS survivors while the looser
threshold 19/50 leaves only two, refuting monotonicity of the survivor
count in the threshold. -/
theorem c7_counterexample_monotonicity_fails :
    (1/5 : ℚ) < 19/50
    ∧ (nms rectIoU (19/50) objsNms).length < (nms rectIoU (1/5) objsNms).length := by
  constructor
  · norm_num
  · norm_num [nms, nmsLoop, nmsSuppress, rectIoU, minX, maxX, minY, maxY, objsNms,
      rectObj, List.filter]

/-- C7 (amended): monotonicity holds step-wise, not globally: for
thresholds t1 ≤ t2, the candidates kept by one suppression step under
t1 form a sublist of those kept under t2; the global survivor count is
not monotone (see the counterexample). -/
theorem c7_amended_stepwise_monotone (iou : Obj → Obj → ℚ) {t1 t2 : ℚ}
    (h : t1 ≤ t2) (x : Obj) (l : List Obj) :
    nms iou t1 (x :: l)
      = x :: nmsLoop iou t1 l.length (nmsSuppress iou t1 x (x :: l))
    ∧ (nmsSuppress iou t1 x (x :: l)).Sublist (nmsSuppress iou t2 x (x :: l)) := by
  refine ⟨rfl, ?_⟩
  exact List.monotone_filter_right _ fun o ho =>
    decide_eq_true (lt_of_lt_of_le (of_decide_eq_true ho) h)

/-- Witness for the amended C7 at concrete thresholds 1/4 ≤ 1/2. -/
theorem c7_amended_witness :
    nms rectIoU (1/4) [rectObj 0 0 1 1 1]
      = rectObj 0 0 1 1 1
        :: nmsLoop rectIoU (1/4) ([] : List Obj).length
             (nmsSuppress rectIoU (1/4) (rectObj 0 0 1 1 1) [rectObj 0 0 1 1 1])
    ∧ (nmsSuppress rectIoU (1/4) (rectObj 0 0 1 1 1) [rectObj 0 0 1 1 1]).Sublist
        (nmsSuppress rectIoU (1/2) (rectObj 0 0 1 1 1) [rectObj 0 0 1 1 1]) :=
  c7_amended_stepwise_monotone rectIoU (by norm_num) (rectObj 0 0 1 1 1) []

/-- C4: the detection sequence equals the NMS survivor order of the
stable confidence-descending sort mapped through record construction,
and its confidences are non-increasing. -/
theorem c4_output_confidence_nonincreasing (getPolygon : PolyOf)
    (simplify : List Pt → List Pt) (iou : Obj → Obj → ℚ)
    (conf_th nms_iou imW imH : ℚ) (rows : List Row) :
    (detectCore getPolygon simplify iou conf_th nms_iou imW imH rows).1
      = (nms iou nms_iou ((buildObjects getPolygon conf_th imW imH rows).mergeSort
          fun a b => b.prob ≤ a.prob)).map (buildDetection simplify imW imH)
    ∧ ((detectCore getPolygon simplify iou conf_th nms_iou imW imH rows).1).Pairwise
        fun d e => e.confidence ≤ d.confidence := by
  have h1 : (detectCore getPolygon simplify iou conf_th nms_iou imW imH rows).1
      = (nms iou nms_iou ((buildObjects getPolygon conf_th imW imH rows).mergeSort
          fun a b => b.prob ≤ a.prob)).map (buildDetection simplify imW imH) := by
    unfold detectCore
    cases hm : (nms iou nms_iou ((buildObjects getPolygon conf_th imW imH rows).mergeSort
        fun a b => b.prob ≤ a.prob)).map (buildDetection simplify imW imH) with
    | nil => simp [hm]
    | cons d ds => simp [hm]
  refine ⟨h1, ?_⟩
  rw [h1, List.pairwise_map]
  have htrans : ∀ a b c : Obj, (decide (b.prob ≤ a.prob)) = true →
      (decide (c.prob ≤ b.prob)) = true → (decide (c.prob ≤ a.prob)) = true :=
    fun a b c hab hbc =>
      decide_eq_true (le_trans (of_decide_eq_true hbc) (of_decide_eq_true hab))
  have htot : ∀ a b : Obj,
      ((decide (b.prob ≤ a.prob)) || (decide (a.prob ≤ b.prob))) = true := by
    intro a b
    rcases le_total b.prob a.prob with h | h <;> simp [h]
  have hsorted :=
    List.sorted_mergeSort htrans htot (buildObjects getPolygon conf_th imW imH rows)
  have hs2 : ((buildObjects getPolygon conf_th imW imH rows).mergeSort
      fun a b => b.prob ≤ a.prob).Pairwise (fun a b : Obj => b.prob ≤ a.prob) :=
    hsorted.imp fun h => of_decide_eq_true h
  exact pairwise_nmsLoop (fun a => le_refl a.prob) iou nms_iou _ _ hs2

/-- C5: every normalized field equals the corresponding pixel-space
field divided component-wise by (width, height) — exactly, in rational
arithmetic, hence within any tolerance — for the bounding box, center,
width/height, accurate polygon, tight quadrilateral and expanded
quadrilateral of every detection record. -/
theorem c5_normalized_eq_pixel_div (simplify : List Pt → List Pt) {imW imH : ℚ}
    (hW : 0 < imW) (hH : 0 < imH) (r : Obj) :
    (buildDetection simplify imW imH r).bbox_xyxyn
      = ((buildDetection simplify imW imH r).bbox_xyxy.1 / imW,
         (buildDetection simplify imW imH r).bbox_xyxy.2.1 / imH,
         (buildDetection simplify imW imH r).bbox_xyxy.2.2.1 / imW,
         (buildDetection simplify imW imH r).bbox_xyxy.2.2.2 / imH)
    ∧ (buildDetection simplify imW imH r).cxcyn
      = ((buildDetection simplify imW imH r).cxcy.1 / imW,
         (buildDetection simplify imW imH r).cxcy.2 / imH)
    ∧ (buildDetection simplify imW imH r).whn
      = ((buildDetection simplify imW imH r).wh.1 / imW,
         (buildDetection simplify imW imH r).wh.2 / imH)
    ∧ (buildDetection simplify imW imH r).polygon_xyn
      = ((buildDetection simplify imW imH r).polygon_xy.map
          fun p => (p.1 / imW, p.2 / imH))
    ∧ (buildDetection simplify imW imH r).quadrilateral_xyn
      = ((buildDetection simplify imW imH r).quadrilateral_xy.map
          fun p => (p.1 / imW, p.2 / imH))
    ∧ (buildDetection simplify imW imH r).expanded_quadrilateral_xyn
      = ((buildDetection simplify imW imH r).expanded_quadrilateral_xy.map
          fun p => (p.1 / imW, p.2 / imH)) := by
  refine ⟨?_, rfl, rfl, ?_, rfl, rfl⟩
  · simp only [buildDetection]
    simp only [clip_div hW, clip_div hH, div_self hW.ne', div_self hH.ne']
  · simp only [buildDetection, List.map_map]
    refine List.map_congr_left fun p _ => ?_
    simp only [Function.comp_apply]
    rw [clip_div hW, clip_div hH, div_self hW.ne', div_self hH.ne']

/-- C1: for every detection record, the expanded quadrilateral's four
vertices, interpreted as a convex region, contain every vertex of the
original, unsimplified accurate polygon after its translation into
original-image pixel space — for every polygon shape (concave and
near-degenerate included) and every simplification behavior. -/
theorem c1_expanded_quadrilateral_contains_polygon (simplify : List Pt → List Pt)
    (imW imH : ℚ) (r : Obj) (p : Pt)
    (hp : p ∈ translatePoly r.x1 r.y1 r.polygon) :
    p ∈ convexHull ℚ
      {q : Pt | q ∈ (buildDetection simplify imW imH r).expanded_quadrilateral_xy} := by
  have he : (buildDetection simplify imW imH r).expanded_quadrilateral_xy
      = bboxCorners (bboxCorners (simplify (translatePoly r.x1 r.y1 r.polygon))
          ++ translatePoly r.x1 r.y1 r.polygon) := rfl
  rw [he]
  exact mem_convexHull_bboxCorners (List.mem_append_right _ hp)

/-- Witness for C1 at a concrete square candidate. -/
theorem c1_witness :
    ((0 : ℚ), (0 : ℚ)) ∈ convexHull ℚ
      {q : Pt |
        q ∈ (buildDetection (fun l => l) 1 1 (rectObj 0 0 1 1 1)).expanded_quadrilateral_xy} :=
  c1_expanded_quadrilateral_contains_polygon (fun l => l) 1 1 (rectObj 0 0 1 1 1) (0, 0)
    (by simp [translatePoly, rectObj])

/-- C2 counterexample: a detection produced by `detect` on a 100×100
image whose center is (-5, 50): the center is not clipped to
`[0, width] × [0, height]`, contradicting the claim that every
pixel-space field except the expanded quadrilateral is clipped. -/
theorem c2_counterexample_center_not_clipped :
    (((detectCore (fun _ _ _ _ => [(0, 0), (4, 0), (4, 4), (0, 4)]) (fun l => l) rectIoU
        (1/2) (3/10) 100 100
        [{ xc := -32, yc := 320, w := 64, h := 640, score := 9/10, maskCoeffs := [] }]).1.map
      fun d => d.cxcy) = [((-5 : ℚ), (50 : ℚ))])
    ∧ ((-5 : ℚ) < 0) := by
  constructor
  · norm_num [detectCore, buildObjects, mkObj, nms, nmsLoop, nmsSuppress, buildDetection,
      translatePoly, List.filterMap_cons, List.mergeSort]
  · norm_num

/-- C2 (amended): only the bounding box and the accurate polygon are
clipped — their pixel fields to `[0, width] × [0, height]` and their
normalized fields to `[0, 1]` — while the center, the width/height and
the tight quadrilateral are left unclipped, exactly like the expanded
quadrilateral. -/
theorem c2_amended_only_bbox_and_polygon_clipped (simplify : List Pt → List Pt)
    {imW imH : ℚ} (hW : 0 ≤ imW) (hH : 0 ≤ imH) (r : Obj) (p q : Pt)
    (hp : p ∈ (buildDetection simplify imW imH r).polygon_xy)
    (hq : q ∈ (buildDetection simplify imW imH r).polygon_xyn) :
    (0 ≤ (buildDetection simplify imW imH r).bbox_xyxy.1
      ∧ (buildDetection simplify imW imH r).bbox_xyxy.1 ≤ imW)
    ∧ (0 ≤ (buildDetection simplify imW imH r).bbox_xyxy.2.1
      ∧ (buildDetection simplify imW imH r).bbox_xyxy.2.1 ≤ imH)
    ∧ (0 ≤ (buildDetection simplify imW imH r).bbox_xyxy.2.2.1
      ∧ (buildDetection simplify imW imH r).bbox_xyxy.2.2.1 ≤ imW)
    ∧ (0 ≤ (buildDetection simplify imW imH r).bbox_xyxy.2.2.2
      ∧ (buildDetection simplify imW imH r).bbox_xyxy.2.2.2 ≤ imH)
    ∧ (0 ≤ (buildDetection simplify imW imH r).bbox_xyxyn.1
      ∧ (buildDetection simplify imW imH r).bbox_xyxyn.1 ≤ 1)
    ∧ (0 ≤ (buildDetection simplify imW imH r).bbox_xyxyn.2.1
      ∧ (buildDetection simplify imW imH r).bbox_xyxyn.2.1 ≤ 1)
    ∧ (0 ≤ (buildDetection simplify imW imH r).bbox_xyxyn.2.2.1
      ∧ (buildDetection simplify imW imH r).bbox_xyxyn.2.2.1 ≤ 1)
    ∧ (0 ≤ (buildDetection simplify imW imH r).bbox_xyxyn.2.2.2
      ∧ (buildDetection simplify imW imH r).bbox_xyxyn.2.2.2 ≤ 1)
    ∧ (0 ≤ p.1 ∧ p.1 ≤ imW ∧ 0 ≤ p.2 ∧ p.2 ≤ imH)
    ∧ (0 ≤ q.1 ∧ q.1 ≤ 1 ∧ 0 ≤ q.2 ∧ q.2 ≤ 1)
    ∧ (buildDetection simplify imW imH r).cxcy
        = ((r.x1 + r.x2) / 2, (r.y1 + r.y2) / 2)
    ∧ (buildDetection simplify imW imH r).wh = (r.x2 - r.x1, r.y2 - r.y1)
    ∧ (buildDetection simplify imW imH r).quadrilateral_xy
        = (fitQuadrilateral simplify (translatePoly r.x1 r.y1 r.polygon)).quadrilateral
    ∧ (buildDetection simplify imW imH r).expanded_quadrilateral_xy
        = (fitQuadrilateral simplify
            (translatePoly r.x1 r.y1 r.polygon)).expanded_quadrilateral := by
  have hp' : p ∈ (translatePoly r.x1 r.y1 r.polygon).map
      (fun u => (clip 0 imW u.1, clip 0 imH u.2)) := hp
  obtain ⟨p0, _, rfl⟩ := List.mem_map.mp hp'
  have hq' : q ∈ ((translatePoly r.x1 r.y1 r.polygon).map
      (fun u => (u.1 / imW, u.2 / imH))).map
        (fun u => (clip 0 1 u.1, clip 0 1 u.2)) := hq
  obtain ⟨q0, _, rfl⟩ := List.mem_map.mp hq'
  exact ⟨⟨le_clip hW _, clip_le _ _ _⟩, ⟨le_clip hH _, clip_le _ _ _⟩,
    ⟨le_clip hW _, clip_le _ _ _⟩, ⟨le_clip hH _, clip_le _ _ _⟩,
    ⟨le_clip zero_le_one _, clip_le _ _ _⟩, ⟨le_clip zero_le_one _, clip_le _ _ _⟩,
    ⟨le_clip zero_le_one _, clip_le _ _ _⟩, ⟨le_clip zero_le_one _, clip_le _ _ _⟩,
    ⟨le_clip hW _, clip_le _ _ _, le_clip hH _, clip_le _ _ _⟩,
    ⟨le_clip zero_le_one _, clip_le _ _ _, le_clip zero_le_one _, clip_le _ _ _⟩,
    rfl, rfl, rfl, rfl⟩

/-- Witness for the amended C2: the first bounding-box bound at a
concrete detection. -/
theorem c2_amended_witness :
    0 ≤ (buildDetection (fun l => l) 10 10 (rectObj 0 0 1 1 1)).bbox_xyxy.1
    ∧ (buildDetection (fun l => l) 10 10 (rectObj 0 0 1 1 1)).bbox_xyxy.1 ≤ 10 :=
  (c2_amended_only_bbox_and_polygon_clipped (fun l => l) (by norm_num) (by norm_num)
    (rectObj 0 0 1 1 1) (0, 0) (0, 0)
    (by norm_num [buildDetection, translatePoly, rectObj, clip])
    (by norm_num [buildDetection, translatePoly, rectObj, clip])).1

/-- Witness for C5: the width/height conjunct at a concrete detection. -/
theorem c5_witness :
    (buildDetection (fun l => l) 2 2 (rectObj 0 0 1 1 1)).whn
      = ((buildDetection (fun l => l) 2 2 (rectObj 0 0 1 1 1)).wh.1 / 2,
         (buildDetection (fun l => l) 2 2 (rectObj 0 0 1 1 1)).wh.2 / 2) :=
  (c5_normalized_eq_pixel_div (fun l => l) (by norm_num) (by norm_num)
    (rectObj 0 0 1 1 1)).2.2.1

end QRDet
